import Mathlib

/-!
Shallow embedding of the Vision Guide AI client (src/App.tsx and src/types.ts)
and a verification of its specified behaviour: the gapless audio playback
scheduler, the interruption path, the keyword-driven perception classifier,
the transcript accumulator with its bounded history, the teardown path, the
fire-and-forget outbound send path, and the PCM/base64 transport codec.

JavaScript strings are modelled as lists of characters, the audio device
timeline as rational numbers, machine bytes as natural numbers below 256 and
16-bit signed PCM samples as integers in [-32768, 32768).
-/

set_option maxHeartbeats 1000000

namespace VisionGuide

/-- A JavaScript string, modelled as its sequence of characters. -/
abbrev JSStr := List Char

/-- JavaScript `String.prototype.toLowerCase`, restricted to the characters
the program actually compares (ASCII). -/
def toLowerCase (s : JSStr) : JSStr := s.map Char.toLower

/-- JavaScript `haystack.includes(needle)`: contiguous-substring test. -/
def includes (haystack needle : JSStr) : Bool := decide (needle <:+: haystack)

/-- Characters removed by JavaScript `String.prototype.trim` (the ASCII
whitespace subset, which is all the program ever produces). -/
def isJsSpace (c : Char) : Bool :=
  c == ' ' || c == '\t' || c == '\n' || c == '\r' || c == '\x0b' || c == '\x0c'

/-- JavaScript `String.prototype.trim`: strip leading and trailing
whitespace. -/
def jsTrim (s : JSStr) : JSStr :=
  List.rdropWhile isJsSpace (s.dropWhile isJsSpace)

/-- JavaScript `Array.prototype.slice(-n)` on an array: the suffix of the
last `n` elements (the whole array when it is shorter than `n`). -/
def sliceLast (n : Nat) (l : List α) : List α := List.rtake l n

end VisionGuide

namespace VisionGuide

/-! ### Binary codec (modelled from the spec)

`src/App.tsx` imports `decode`, `encode`, `decodeAudioData` and
`createBlobFromAudioData` from `./utils/audio-utils`, a file of this
repository that is not under `src/`.  The definitions below are modelled
from the spec, §4.1 Binary Codec. -/

/-- The standard base64 alphabet, in index order. -/
def b64Alphabet : List Char :=
  ['A','B','C','D','E','F','G','H','I','J','K','L','M',
   'N','O','P','Q','R','S','T','U','V','W','X','Y','Z',
   'a','b','c','d','e','f','g','h','i','j','k','l','m',
   'n','o','p','q','r','s','t','u','v','w','x','y','z',
   '0','1','2','3','4','5','6','7','8','9','+','/']

/-- The base64 digit for a 6-bit value. -/
def b64Char (n : Nat) : Char := b64Alphabet.getD n '='

/-- The 6-bit value of a base64 digit, `none` for a character outside the
alphabet. -/
def b64Index (c : Char) : Option Nat := b64Alphabet.findIdx? (fun a => a == c)

/-- The error message of a failing transport decode (JavaScript `atob`
raises an `InvalidCharacterError` on malformed base64). -/
def invalidCharacterError : JSStr :=
  ['I','n','v','a','l','i','d','C','h','a','r','a','c','t','e','r','E','r','r','o','r']

/-- Modelled from the spec: `encodeToTransport` — standard base64 over a
byte sequence (three bytes become four digits; a final group of one or two
bytes is padded with `=`). -/
def encodeBytes : List Nat → JSStr
  | [] => []
  | [b1] => [b64Char (b1 / 4), b64Char (b1 % 4 * 16), '=', '=']
  | [b1, b2] =>
      [b64Char (b1 / 4), b64Char (b1 % 4 * 16 + b2 / 16), b64Char (b2 % 16 * 4), '=']
  | b1 :: b2 :: b3 :: rest =>
      b64Char (b1 / 4) :: b64Char (b1 % 4 * 16 + b2 / 16) ::
      b64Char (b2 % 16 * 4 + b3 / 64) :: b64Char (b3 % 64) :: encodeBytes rest

/-- Modelled from the spec: `decodeFromTransport` — inverse of base64
encoding; fails with a decode error on malformed input (characters outside
the alphabet, bad length, or padding anywhere but the final group). -/
def decodeBytes : JSStr → Except JSStr (List Nat)
  | [] => .ok []
  | c1 :: c2 :: c3 :: c4 :: rest =>
    match b64Index c1, b64Index c2 with
    | some v1, some v2 =>
      if c3 = '=' then
        (if c4 = '=' ∧ rest = [] then .ok [v1 * 4 + v2 / 16]
         else .error invalidCharacterError)
      else
        match b64Index c3 with
        | some v3 =>
          if c4 = '=' then
            (if rest = [] then .ok [v1 * 4 + v2 / 16, v2 % 16 * 16 + v3 / 4]
             else .error invalidCharacterError)
          else
            match b64Index c4 with
            | some v4 =>
              match decodeBytes rest with
              | .ok tail =>
                  .ok ((v1 * 4 + v2 / 16) :: (v2 % 16 * 16 + v3 / 4) ::
                       (v3 % 4 * 64 + v4) :: tail)
              | .error e => .error e
            | none => .error invalidCharacterError
        | none => .error invalidCharacterError
    | _, _ => .error invalidCharacterError
  | _ => .error invalidCharacterError

/-- The two little-endian bytes of a 16-bit signed sample (its two's
complement representation). -/
def int16ToBytes (s : Int) : List Nat :=
  let u := (s % 65536).toNat
  [u % 256, u / 256]

/-- Modelled from the spec: `encodeToTransport` on a sequence of 16-bit
signed PCM samples — base64 over their little-endian byte serialization. -/
def encodeToTransport (samples : List Int) : JSStr :=
  encodeBytes (samples.flatMap int16ToBytes)

/-- Modelled from the spec: `decodeFromTransport` on a transport string. -/
def decodeFromTransport (transport : JSStr) : Except JSStr (List Nat) :=
  decodeBytes transport

/-- The signed value of a 16-bit unsigned representation. -/
def int16val (u : Nat) : Int := if u ≥ 32768 then (u : Int) - 65536 else (u : Int)

/-- Modelled from the spec: the PCM-to-float conversion inside
`bytesToPlayableBuffer` — consecutive byte pairs are 16-bit signed
little-endian samples, each normalized to [-1, 1] by dividing by 32768; an
odd trailing byte (incomplete sample) is discarded, not an error. -/
def bytesToSamples : List Nat → List ℚ
  | b0 :: b1 :: rest => ((int16val (b0 + b1 * 256) : ℚ) / 32768) :: bytesToSamples rest
  | _ => []

/-- A decoded audio buffer: mono float samples at a sample rate. -/
structure AudioBuffer where
  samples : List ℚ
  sampleRate : ℚ
deriving DecidableEq

/-- The duration, in seconds, of an audio buffer. -/
def AudioBuffer.duration (b : AudioBuffer) : ℚ := b.samples.length / b.sampleRate

/-- Modelled from the spec: `bytesToPlayableBuffer` (called
`decodeAudioData` in the source) — a mono buffer of normalized samples at
the given sample rate. -/
def bytesToPlayableBuffer (bytes : List Nat) (rate : ℚ) : AudioBuffer :=
  { samples := bytesToSamples bytes, sampleRate := rate }

/-! ### Data model (src/types.ts and src/App.tsx) -/

/-- `ConnectionStatus` from src/types.ts. -/
inductive ConnectionStatus
  | DISCONNECTED
  | CONNECTING
  | CONNECTED
  | ERROR
deriving DecidableEq

/-- `PerceptionState` from src/App.tsx. -/
inductive PerceptionState
  | IDLE
  | SCANNING
  | LOCKING
  | GUIDING
deriving DecidableEq

/-- The role of a transcript turn. -/
inductive Role
  | user
  | model
deriving DecidableEq

/-- The `Message` interface from src/App.tsx: one committed transcript
turn. -/
structure Message where
  role : Role
  text : JSStr
deriving DecidableEq

/-- A scheduled output buffer handle (`AudioBufferSourceNode`), as far as
the program observes it: its scheduled start time, its duration, and
whether playback has finished. -/
structure AudioBufferSourceNode where
  id : Nat
  startTime : ℚ
  duration : ℚ
  finished : Bool
deriving DecidableEq

/-- What `source.stop()` can do: raise on a handle whose playback has
already finished, succeed otherwise. -/
def stopNode (s : AudioBufferSourceNode) : Except JSStr Unit :=
  if s.finished then .error invalidCharacterError else .ok ()

/-- `try { source.stop(); } catch(e) {}` — the stop with its error
swallowed, as written at src/App.tsx lines 90 and 202. -/
def tryStopNode (s : AudioBufferSourceNode) : Except JSStr AudioBufferSourceNode :=
  match stopNode s with
  | .ok _ => .ok { s with finished := true }
  | .error _ => .ok s

/-- The mutable state of the `App` component: the six `useState` cells and
the refs that the claims are about. -/
structure AppState where
  status : ConnectionStatus
  perceptionState : PerceptionState
  history : List Message
  currentInput : JSStr
  currentOutput : JSStr
  isCameraActive : Bool
  errorMessage : Option JSStr
  sessionRef : Option Nat
  mediaStreamRef : Option Nat
  frameIntervalRef : Option Nat
  audioContextOut : Bool
  nextStartTimeRef : ℚ
  sourcesRef : List AudioBufferSourceNode
  activeInputRef : JSStr
  activeOutputRef : JSStr
deriving DecidableEq

/-- The component's initial state: every `useState` initializer and every
ref's initial value, before any session was ever started. -/
def initialState : AppState :=
  { status := ConnectionStatus.DISCONNECTED
    perceptionState := PerceptionState.IDLE
    history := []
    currentInput := []
    currentOutput := []
    isCameraActive := false
    errorMessage := none
    sessionRef := none
    mediaStreamRef := none
    frameIntervalRef := none
    audioContextOut := false
    nextStartTimeRef := 0
    sourcesRef := []
    activeInputRef := []
    activeOutputRef := [] }

/-! ### Perception state classifier (src/App.tsx lines 216-223) -/

def kwFound : JSStr := ['f','o','u','n','d']
def kwAcquired : JSStr := ['a','c','q','u','i','r','e','d']
def kwSeeIt : JSStr := ['s','e','e',' ','i','t']
def kwStep : JSStr := ['s','t','e','p']
def kwMove : JSStr := ['m','o','v','e']
def kwLeft : JSStr := ['l','e','f','t']
def kwRight : JSStr := ['r','i','g','h','t']
def kwAhead : JSStr := ['a','h','e','a','d']
def kwScanning : JSStr := ['s','c','a','n','n','i','n','g']
def kwLostSight : JSStr := ['l','o','s','t',' ','s','i','g','h','t']
def kwLooking : JSStr := ['l','o','o','k','i','n','g']

/-- The keyword groups, in the priority order of the source's if/else
chain. -/
def lockingKeywords : List JSStr := [kwFound, kwAcquired, kwSeeIt]

def guidingKeywords : List JSStr := [kwStep, kwMove, kwLeft, kwRight, kwAhead]

def scanningKeywords : List JSStr := [kwScanning, kwLostSight, kwLooking]

/-- The inline classifier of src/App.tsx lines 216-223: lower-case the
accumulated output text and run the if/else chain; an unmatched text leaves
the state unchanged. -/
def classifyPerception (text : JSStr) (prev : PerceptionState) : PerceptionState :=
  let lower := toLowerCase text
  if includes lower kwFound || includes lower kwAcquired || includes lower kwSeeIt then
    PerceptionState.LOCKING
  else if includes lower kwStep || includes lower kwMove || includes lower kwLeft ||
      includes lower kwRight || includes lower kwAhead then
    PerceptionState.GUIDING
  else if includes lower kwScanning || includes lower kwLostSight ||
      includes lower kwLooking then
    PerceptionState.SCANNING
  else prev

/-- Some keyword of the group occurs in the lower-cased text. -/
def mentionsAny (kws : List JSStr) (text : JSStr) : Prop :=
  ∃ kw ∈ kws, kw <:+: toLowerCase text

instance (kws : List JSStr) (text : JSStr) : Decidable (mentionsAny kws text) := by
  unfold mentionsAny; infer_instance

/-! ### The inbound message handler (src/App.tsx lines 186-240) -/

/-- The fields of `message.serverContent` the handler reads.  `audioData`
is `message.serverContent?.modelTurn?.parts?.[0]?.inlineData?.data`, a
base64 transport string. -/
structure ServerMessage where
  audioData : Option JSStr := none
  interrupted : Bool := false
  inputTranscription : Option JSStr := none
  outputTranscription : Option JSStr := none
  turnComplete : Bool := false
deriving DecidableEq

/-- Line 190: the scheduled start of the next buffer,
`Math.max(nextStartTimeRef.current, ctx.currentTime)`. -/
def scheduledStart (st : AppState) (now : ℚ) : ℚ :=
  max st.nextStartTimeRef now

/-- The two optional transcript turns appended on a completed turn, user
before model (src/App.tsx lines 230-233). -/
def turnEntries (finalInput finalOutput : JSStr) : List Message :=
  (if finalInput.isEmpty then [] else [{ role := Role.user, text := finalInput }]) ++
  (if finalOutput.isEmpty then [] else [{ role := Role.model, text := finalOutput }])

/-- The `turnComplete` block (src/App.tsx lines 226-239): trim both
buffers, append the non-empty ones to the history capped with
`.slice(-15)`, then clear both buffers. -/
def commitTurn (st : AppState) : AppState :=
  let finalInput := jsTrim st.activeInputRef
  let finalOutput := jsTrim st.activeOutputRef
  let history' :=
    if finalInput.isEmpty && finalOutput.isEmpty then st.history
    else sliceLast 15 (st.history ++ turnEntries finalInput finalOutput)
  { st with history := history'
            activeInputRef := []
            activeOutputRef := []
            currentInput := []
            currentOutput := [] }

/-- The `onmessage` callback (src/App.tsx lines 186-240).  `now` is the
output device clock `ctx.currentTime` as sampled by this invocation and
`freshId` identifies the buffer source node this invocation creates.  A
transport decode failure rejects the async handler, abandoning the later
blocks. -/
def onmessage (st : AppState) (msg : ServerMessage) (now : ℚ) (freshId : Nat) :
    Except JSStr AppState :=
  let audioStep : Except JSStr AppState :=
    match msg.audioData with
    | some transport =>
        if st.audioContextOut then
          let st1 := { st with nextStartTimeRef := scheduledStart st now }
          match decodeFromTransport transport with
          | .ok bytes =>
              let buffer := bytesToPlayableBuffer bytes 24000
              let node : AudioBufferSourceNode :=
                { id := freshId
                  startTime := st1.nextStartTimeRef
                  duration := buffer.duration
                  finished := false }
              .ok { st1 with
                      nextStartTimeRef := st1.nextStartTimeRef + buffer.duration
                      sourcesRef := st1.sourcesRef ++ [node] }
          | .error e => .error e
        else .ok st
    | none => .ok st
  match audioStep with
  | .error e => .error e
  | .ok st1 =>
    let st2 :=
      if msg.interrupted then
        let _stopped := st1.sourcesRef.map tryStopNode
        { st1 with sourcesRef := [], nextStartTimeRef := 0 }
      else st1
    let st3 :=
      match msg.inputTranscription with
      | some t =>
          let acc := st2.activeInputRef ++ t
          { st2 with activeInputRef := acc, currentInput := acc }
      | none => st2
    let st4 :=
      match msg.outputTranscription with
      | some t =>
          let acc := st3.activeOutputRef ++ t
          { st3 with activeOutputRef := acc
                     currentOutput := acc
                     perceptionState := classifyPerception acc st3.perceptionState }
      | none => st3
    .ok (if msg.turnComplete then commitTurn st4 else st4)

/-! ### Session lifecycle (src/App.tsx lines 77-106) -/

/-- `cleanupSession` (src/App.tsx lines 77-101): close the session handle
(errors swallowed), clear the frame timer, stop and drop the media tracks,
force-stop every queued source (errors swallowed) and clear the queue,
reset the playback clock, and reset status, perception state, camera flag
and the four transcription buffers. -/
def cleanupSession (st : AppState) : AppState :=
  let _stopped := st.sourcesRef.map tryStopNode
  { st with
      sessionRef := none
      frameIntervalRef := none
      mediaStreamRef := none
      sourcesRef := []
      nextStartTimeRef := 0
      status := ConnectionStatus.DISCONNECTED
      perceptionState := PerceptionState.IDLE
      isCameraActive := false
      activeInputRef := []
      activeOutputRef := []
      currentInput := []
      currentOutput := [] }

/-- The first two statements of `startSession` (src/App.tsx lines
104-106): clear the error string and move to Connecting. -/
def startSessionBegin (st : AppState) : AppState :=
  { st with errorMessage := none, status := ConnectionStatus.CONNECTING }

/-! ### Capture pipeline (src/App.tsx lines 149-184) -/

/-- An outbound media chunk, as built by `createBlobFromAudioData`. -/
structure Blob where
  data : JSStr
  mimeType : JSStr
deriving DecidableEq

/-- Clamp a float sample to a 16-bit signed integer. -/
def floatTo16 (x : ℚ) : Int := max (-32768) (min 32767 ⌊x * 32768⌋)

/-- Modelled from the spec: `createBlobFromAudioData` (imported from
`./utils/audio-utils`, not under src/) — encode a block of float samples
as 16-bit PCM over the base64 transport, §4.1. -/
def createBlobFromAudioData (data : List ℚ) : Blob :=
  { data := encodeToTransport (data.map floatTo16)
    mimeType := ['a','u','d','i','o','/','p','c','m'] }

/-- `sessionPromise.then(session => session.sendRealtimeInput(...))
.catch(() => {})` — the settled result of the send chain: whatever the
send did, the trailing catch discards the failure, so the chain always
settles successfully. -/
def promiseCatchDiscard (outcome : Except JSStr Unit) : Except JSStr Unit :=
  match outcome with
  | .ok _ => .ok ()
  | .error _ => .ok ()

/-- The capture-side state the two periodic producers can observe: whether
the session is still up, whether the producers are still attached, and how
many chunks/frames each has pushed. -/
structure CaptureState where
  sessionAlive : Bool
  producersAttached : Bool
  chunksAttempted : Nat
  framesAttempted : Nat
deriving DecidableEq

/-- One firing of either periodic producer: an audio block with the
outcome of its send, or a frame-timer tick with the video readiness and
the outcome of its send. -/
inductive CaptureEvent
  | audioChunk (samples : List ℚ) (sendOutcome : Except JSStr Unit)
  | frameTimer (videoReady : Bool) (sendOutcome : Except JSStr Unit)

/-- `processor.onaudioprocess` (src/App.tsx lines 149-155): build the PCM
blob and fire the send, discarding its failure via the trailing catch. -/
def onaudioprocess (cs : CaptureState) (samples : List ℚ)
    (sendOutcome : Except JSStr Unit) : CaptureState :=
  let _pcmBlob := createBlobFromAudioData samples
  let _settled := promiseCatchDiscard sendOutcome
  { cs with chunksAttempted := cs.chunksAttempted + 1 }

/-- One tick of the frame interval (src/App.tsx lines 160-184): when the
video has dimensions, capture a frame and fire the send, discarding its
failure via the trailing catch; otherwise do nothing. -/
def frameTimerTick (cs : CaptureState) (videoReady : Bool)
    (sendOutcome : Except JSStr Unit) : CaptureState :=
  if videoReady then
    let _settled := promiseCatchDiscard sendOutcome
    { cs with framesAttempted := cs.framesAttempted + 1 }
  else cs

/-- Dispatch one capture event to its producer callback. -/
def captureStep (cs : CaptureState) : CaptureEvent → CaptureState
  | .audioChunk samples outcome => onaudioprocess cs samples outcome
  | .frameTimer ready outcome => frameTimerTick cs ready outcome

/-- Run the capture loop over a sequence of producer firings. -/
def runCapture (cs : CaptureState) (events : List CaptureEvent) : CaptureState :=
  events.foldl captureStep cs

/-- The audio events of a trace. -/
def isAudioEvent : CaptureEvent → Bool
  | .audioChunk _ _ => true
  | .frameTimer _ _ => false

/-- The frame-timer events of a trace that found the video ready. -/
def isReadyFrameEvent : CaptureEvent → Bool
  | .audioChunk _ _ => false
  | .frameTimer ready _ => ready

/-! ### Committed-turn traces -/

/-- Run the message handler over a sequence of completed turns: the
`i`-th message carries the turn's input and output transcription together
with the turn-complete marker. -/
def runCommits (st : AppState) : List (JSStr × JSStr) → Except JSStr AppState
  | [] => .ok st
  | (u, o) :: rest =>
      match onmessage st
          { inputTranscription := some u
            outputTranscription := some o
            turnComplete := true } 0 0 with
      | .ok st' => runCommits st' rest
      | .error e => .error e

/-- The transcript turns a sequence of completed turns commits, in
order. -/
def committedEntries (turns : List (JSStr × JSStr)) : List Message :=
  turns.flatMap (fun p => turnEntries (jsTrim p.1) (jsTrim p.2))

/-! ### Codec lemmas -/

theorem b64_roundtrip_fin : ∀ n : Fin 64, b64Index (b64Char n.val) = some n.val := by decide

theorem b64Char_ne_pad_fin : ∀ n : Fin 64, b64Char n.val ≠ '=' := by decide

theorem b64Index_b64Char {n : Nat} (h : n < 64) : b64Index (b64Char n) = some n :=
  b64_roundtrip_fin ⟨n, h⟩

theorem b64Char_ne_pad {n : Nat} (h : n < 64) : b64Char n ≠ '=' :=
  b64Char_ne_pad_fin ⟨n, h⟩

theorem decodeBytes_encodeBytes :
    ∀ bs : List Nat, (∀ b ∈ bs, b < 256) → decodeBytes (encodeBytes bs) = .ok bs
  | [], _ => rfl
  | [b1], h => by
      have hb1 : b1 < 256 := h b1 (by simp)
      have h1 : b1 / 4 < 64 := by omega
      have h2 : b1 % 4 * 16 < 64 := by omega
      simp [encodeBytes, decodeBytes, b64Index_b64Char h1, b64Index_b64Char h2]
      omega
  | [b1, b2], h => by
      have hb1 : b1 < 256 := h b1 (by simp)
      have hb2 : b2 < 256 := h b2 (by simp)
      have h1 : b1 / 4 < 64 := by omega
      have h2 : b1 % 4 * 16 + b2 / 16 < 64 := by omega
      have h3 : b2 % 16 * 4 < 64 := by omega
      simp [encodeBytes, decodeBytes, b64Index_b64Char h1, b64Index_b64Char h2,
        b64Index_b64Char h3, b64Char_ne_pad h3]
      omega
  | b1 :: b2 :: b3 :: rest, h => by
      have hb1 : b1 < 256 := h b1 (by simp)
      have hb2 : b2 < 256 := h b2 (by simp)
      have hb3 : b3 < 256 := h b3 (by simp)
      have h1 : b1 / 4 < 64 := by omega
      have h2 : b1 % 4 * 16 + b2 / 16 < 64 := by omega
      have h3 : b2 % 16 * 4 + b3 / 64 < 64 := by omega
      have h4 : b3 % 64 < 64 := by omega
      have ih := decodeBytes_encodeBytes rest (fun b hb => h b (by simp [hb]))
      simp [encodeBytes, decodeBytes, b64Index_b64Char h1, b64Index_b64Char h2,
        b64Index_b64Char h3, b64Index_b64Char h4, b64Char_ne_pad h3, b64Char_ne_pad h4, ih]
      refine ⟨by omega, by omega, by omega⟩

theorem int16ToBytes_lt (s : Int) : ∀ b ∈ int16ToBytes s, b < 256 := by
  intro b hb
  simp only [int16ToBytes, List.mem_cons, List.mem_singleton, List.not_mem_nil] at hb
  rcases hb with h | h | h
  · omega
  · omega
  · exact absurd h (by simp)

theorem int16val_roundtrip {s : Int} (h1 : -32768 ≤ s) (h2 : s < 32768) :
    int16val ((s % 65536).toNat % 256 + (s % 65536).toNat / 256 * 256) = s := by
  unfold int16val
  split <;> omega

theorem bytesToSamples_int16 {s : Int} (h1 : -32768 ≤ s) (h2 : s < 32768) (more : List Nat) :
    bytesToSamples (int16ToBytes s ++ more) = ((s : ℚ) / 32768) :: bytesToSamples more := by
  simp only [int16ToBytes, List.cons_append, List.nil_append, bytesToSamples]
  rw [int16val_roundtrip h1 h2]
  simp

theorem bytesToSamples_flatMap (samples : List Int)
    (h : ∀ s ∈ samples, -32768 ≤ s ∧ s < 32768) :
    bytesToSamples (samples.flatMap int16ToBytes) =
      samples.map (fun s : Int => ((s : ℚ) / 32768)) := by
  induction samples with
  | nil => rfl
  | cons s rest ih =>
      have hs := h s (by simp)
      simp only [List.flatMap_cons, List.map_cons]
      rw [bytesToSamples_int16 hs.1 hs.2, ih (fun x hx => h x (by simp [hx]))]

theorem bytesToSamples_length : ∀ l : List Nat, (bytesToSamples l).length = l.length / 2
  | [] => rfl
  | [_] => by simp [bytesToSamples]
  | _ :: _ :: rest => by
      simp only [bytesToSamples, List.length_cons, bytesToSamples_length rest]
      omega

theorem bytesToSamples_dropLast_of_odd :
    ∀ l : List Nat, Odd l.length → bytesToSamples l = bytesToSamples l.dropLast
  | [], h => by simp at h
  | [_], _ => rfl
  | [b0, b1], h => by
      rcases h with ⟨k, hk⟩
      simp only [List.length_cons, List.length_nil] at hk
      omega
  | b0 :: b1 :: r :: rs, h => by
      have hodd : Odd (r :: rs).length := by
        rcases h with ⟨k, hk⟩
        simp only [List.length_cons] at hk ⊢
        exact ⟨k - 1, by omega⟩
      simp only [bytesToSamples, List.dropLast_cons₂]
      rw [← bytesToSamples_dropLast_of_odd (r :: rs) hodd]

theorem bytesToSamples_getD :
    ∀ (l : List Nat) (i : Nat), 2 * i + 1 < l.length →
      (bytesToSamples l).getD i 0 =
        (int16val (l.getD (2 * i) 0 + l.getD (2 * i + 1) 0 * 256) : ℚ) / 32768
  | [], i, h => by simp at h
  | [_], i, h => by simp at h
  | b0 :: b1 :: rest, 0, _ => rfl
  | b0 :: b1 :: rest, i + 1, h => by
      have hlt : 2 * i + 1 < rest.length := by
        simp only [List.length_cons] at h; omega
      have e2 : 2 * (i + 1) = 2 * i + 1 + 1 := by ring
      simp only [bytesToSamples, List.getD_cons_succ, e2]
      exact bytesToSamples_getD rest i hlt

theorem bytesToSamples_mem_range :
    ∀ l : List Nat, (∀ b ∈ l, b < 256) → ∀ x ∈ bytesToSamples l, -1 ≤ x ∧ x ≤ 1
  | [], _ => by intro x hx; simp [bytesToSamples] at hx
  | [_], _ => by intro x hx; simp [bytesToSamples] at hx
  | b0 :: b1 :: rest, h => by
      have ih := bytesToSamples_mem_range rest (fun b hb => h b (by simp [hb]))
      intro x hx
      simp only [bytesToSamples, List.mem_cons] at hx
      rcases hx with hx | hx
      · subst hx
        have hb0 : b0 < 256 := h b0 (by simp)
        have hb1 : b1 < 256 := h b1 (by simp)
        have hv : -32768 ≤ int16val (b0 + b1 * 256) ∧ int16val (b0 + b1 * 256) ≤ 32767 := by
          unfold int16val; split <;> omega
        constructor
        · rw [neg_le, ← neg_div]
          rw [div_le_one (by norm_num : (0:ℚ) < 32768)]
          have : (-32768 : ℚ) ≤ (int16val (b0 + b1 * 256) : ℚ) := by
            exact_mod_cast hv.1
          linarith
        · rw [div_le_one (by norm_num : (0:ℚ) < 32768)]
          have : (int16val (b0 + b1 * 256) : ℚ) ≤ 32767 := by exact_mod_cast hv.2
          linarith
      · exact ih x hx

/-! ### Helper lemmas -/

theorem sliceLast_length_le (n : Nat) (l : List α) : (sliceLast n l).length ≤ n := by
  simp only [sliceLast, List.rtake, List.length_drop]
  omega

theorem sliceLast_of_length_le {n : Nat} {l : List α} (h : l.length ≤ n) :
    sliceLast n l = l := by
  simp only [sliceLast, List.rtake, Nat.sub_eq_zero_of_le h, List.drop_zero]

theorem sliceLast_suffix (n : Nat) (l : List α) : sliceLast n l <:+ l := by
  simp only [sliceLast, List.rtake]
  exact List.drop_suffix _ _

theorem sliceLast_append_sliceLast (n : Nat) (a b : List α) :
    sliceLast n (sliceLast n a ++ b) = sliceLast n (a ++ b) := by
  simp only [sliceLast, List.rtake_eq_reverse_take_reverse]
  rw [List.reverse_append, List.reverse_reverse, List.reverse_append]
  congr 1
  rw [List.take_append_eq_append_take, List.take_append_eq_append_take]
  congr 1
  rw [List.take_take]
  congr 1
  omega

theorem tryStopNode_never_raises (s : AudioBufferSourceNode) :
    ∃ t, tryStopNode s = .ok t ∧ t.finished = true := by
  unfold tryStopNode stopNode
  by_cases h : s.finished
  · exact ⟨s, by simp [h]⟩
  · exact ⟨{ s with finished := true }, by simp [h]⟩

theorem includes_iff (haystack needle : JSStr) :
    includes haystack needle = true ↔ needle <:+: haystack := by
  simp [includes]

theorem mentionsAny_iff (kws : List JSStr) (text : JSStr) :
    mentionsAny kws text ↔ kws.any (fun kw => includes (toLowerCase text) kw) = true := by
  simp [mentionsAny, includes, List.any_eq_true]

/-! ### Claim theorems -/

/-- C7: the teardown path `cleanupSession` is idempotent and total:
running it twice equals running it once, running it on the state of a
component whose session never started returns that state unchanged (and,
being a total function, raises nothing), and afterwards the status is
Disconnected, the perception state is Idle, the session handle, frame
timer and media tracks are released, the playback queue is empty and the
playback clock is zero. -/
theorem cleanupSession_idempotent_total (st : AppState) :
    cleanupSession (cleanupSession st) = cleanupSession st ∧
    cleanupSession initialState = initialState ∧
    (cleanupSession st).status = ConnectionStatus.DISCONNECTED ∧
    (cleanupSession st).perceptionState = PerceptionState.IDLE ∧
    (cleanupSession st).sessionRef = none ∧
    (cleanupSession st).frameIntervalRef = none ∧
    (cleanupSession st).mediaStreamRef = none ∧
    (cleanupSession st).sourcesRef = [] ∧
    (cleanupSession st).nextStartTimeRef = 0 := by
  refine ⟨rfl, rfl, rfl, rfl, rfl, rfl, rfl, rfl, rfl⟩

/-- C10: the teardown path leaves the committed history and the displayed
error string untouched while resetting status, perception state, the
transcription buffers, the playback queue and clock, and the session
resources; the error string is cleared only when a new session start
begins (`startSession` first sets it to null and moves to Connecting,
without touching the history). -/
theorem cleanupSession_frame_effect (st : AppState) :
    (cleanupSession st).history = st.history ∧
    (cleanupSession st).errorMessage = st.errorMessage ∧
    (cleanupSession st).status = ConnectionStatus.DISCONNECTED ∧
    (cleanupSession st).perceptionState = PerceptionState.IDLE ∧
    (cleanupSession st).currentInput = [] ∧
    (cleanupSession st).currentOutput = [] ∧
    (cleanupSession st).activeInputRef = [] ∧
    (cleanupSession st).activeOutputRef = [] ∧
    (cleanupSession st).sourcesRef = [] ∧
    (cleanupSession st).nextStartTimeRef = 0 ∧
    (cleanupSession st).sessionRef = none ∧
    (cleanupSession st).frameIntervalRef = none ∧
    (cleanupSession st).mediaStreamRef = none ∧
    (startSessionBegin st).errorMessage = none ∧
    (startSessionBegin st).history = st.history ∧
    (startSessionBegin st).status = ConnectionStatus.CONNECTING := by
  refine ⟨rfl, rfl, rfl, rfl, rfl, rfl, rfl, rfl, rfl, rfl, rfl, rfl, rfl, rfl, rfl, rfl⟩

/-- C9: a failed outbound send is swallowed at its point of origin: the
send chain always settles successfully, and over any trace of producer
firings with arbitrary per-send outcomes the capture loop keeps the
session alive, keeps the producers attached, and still runs every later
audio and frame callback — one lost frame or audio chunk never aborts
capture. -/
theorem send_failures_swallowed (cs : CaptureState) (events : List CaptureEvent)
    (outcome : Except JSStr Unit) :
    promiseCatchDiscard outcome = .ok () ∧
    (runCapture cs events).sessionAlive = cs.sessionAlive ∧
    (runCapture cs events).producersAttached = cs.producersAttached ∧
    (runCapture cs events).chunksAttempted =
      cs.chunksAttempted + events.countP isAudioEvent ∧
    (runCapture cs events).framesAttempted =
      cs.framesAttempted + events.countP isReadyFrameEvent := by
  refine ⟨by cases outcome <;> rfl, ?_⟩
  induction events generalizing cs with
  | nil => simp [runCapture]
  | cons e rest ih =>
      have step : ∀ cs' : CaptureState, runCapture cs' (e :: rest) =
          runCapture (captureStep cs' e) rest := fun _ => rfl
      rw [step]
      obtain ⟨h1, h2, h3, h4⟩ := ih (captureStep cs e)
      cases e with
      | audioChunk samples o =>
          refine ⟨by rw [h1]; rfl, by rw [h2]; rfl, ?_, ?_⟩
          · rw [h3]
            simp [captureStep, onaudioprocess, List.countP_cons, isAudioEvent]
            omega
          · rw [h4]
            simp [captureStep, onaudioprocess, List.countP_cons, isReadyFrameEvent]
      | frameTimer ready o =>
          cases ready with
          | true =>
              refine ⟨by rw [h1]; rfl, by rw [h2]; rfl, ?_, ?_⟩
              · rw [h3]
                simp [captureStep, frameTimerTick, List.countP_cons, isAudioEvent]
              · rw [h4]
                simp [captureStep, frameTimerTick, List.countP_cons, isReadyFrameEvent]
                omega
          | false =>
              refine ⟨by rw [h1]; rfl, by rw [h2]; rfl, ?_, ?_⟩
              · rw [h3]
                simp [captureStep, frameTimerTick, List.countP_cons, isAudioEvent]
              · rw [h4]
                simp [captureStep, frameTimerTick, List.countP_cons, isReadyFrameEvent]

/-- C1: for every inbound message carrying an audio payload, the handler
schedules the decoded buffer at `max(PlaybackClock, deviceCurrentTime)` as
sampled when the message is handled, and leaves the playback clock equal to
that start time plus the buffer's duration; when the device clock has not
yet reached the previously scheduled end the segment starts exactly there
(no gap, no overlap), and a segment arriving after its slot has passed
starts at the device's current time. -/
theorem audio_segment_scheduling (st : AppState) (msg : ServerMessage) (now : ℚ)
    (freshId : Nat) (transport : JSStr) (bytes : List Nat)
    (hA : msg.audioData = some transport)
    (hCtx : st.audioContextOut = true)
    (hDec : decodeFromTransport transport = .ok bytes)
    (hInt : msg.interrupted = false) :
    ∃ st' : AppState, onmessage st msg now freshId = .ok st' ∧
      st'.sourcesRef = st.sourcesRef ++
        [{ id := freshId
           startTime := scheduledStart st now
           duration := (bytesToPlayableBuffer bytes 24000).duration
           finished := false }] ∧
      st'.nextStartTimeRef =
        scheduledStart st now + (bytesToPlayableBuffer bytes 24000).duration ∧
      (now ≤ st.nextStartTimeRef → scheduledStart st now = st.nextStartTimeRef) ∧
      (st.nextStartTimeRef ≤ now → scheduledStart st now = now) := by
  obtain ⟨ad, intr, it, ot, tc⟩ := msg
  simp only at hA hInt
  subst hA
  subst hInt
  cases it <;> cases ot <;> cases tc
  all_goals
    simp only [onmessage, hCtx, hDec, if_true]
    exact ⟨_, rfl, by simp [commitTurn], by simp [commitTurn],
      fun h => max_eq_left h, fun h => max_eq_right h⟩

/-- Witness for C1: a segment of two bytes (one 24 kHz sample) arrives at
device time 5 with the playback clock at 2 (its slot has passed): it is
scheduled at device time 5 and the clock advances to 5 plus its duration. -/
theorem audio_segment_scheduling_witness :
    ∃ st' : AppState,
      onmessage { initialState with audioContextOut := true, nextStartTimeRef := 2 }
          { audioData := some (encodeBytes [1, 2]) } 5 0 = .ok st' ∧
      st'.sourcesRef = [] ++
        [{ id := 0
           startTime := scheduledStart
             { initialState with audioContextOut := true, nextStartTimeRef := 2 } 5
           duration := (bytesToPlayableBuffer [1, 2] 24000).duration
           finished := false }] ∧
      st'.nextStartTimeRef =
        scheduledStart { initialState with audioContextOut := true, nextStartTimeRef := 2 } 5 +
          (bytesToPlayableBuffer [1, 2] 24000).duration ∧
      scheduledStart { initialState with audioContextOut := true, nextStartTimeRef := 2 } 5
        = 5 := by
  obtain ⟨st', h1, h2, h3, _, h5⟩ :=
    audio_segment_scheduling
      { initialState with audioContextOut := true, nextStartTimeRef := 2 }
      { audioData := some (encodeBytes [1, 2]) } 5 0
      (encodeBytes [1, 2]) [1, 2] rfl rfl rfl rfl
  exact ⟨st', h1, h2, h3, h5 (by norm_num)⟩

/-- C2: after an interruption message is handled the playback queue is
empty and the playback clock is zero, so the next segment's start is
anchored to the device's current time; every queued handle is stopped with
the stop error swallowed, and stopping a handle whose playback already
finished does not raise. -/
theorem interruption_resets (st : AppState) (msg : ServerMessage) (now now' : ℚ)
    (freshId : Nat)
    (hA : msg.audioData = none)
    (hInt : msg.interrupted = true)
    (hNow : 0 ≤ now') :
    ∃ st' : AppState, onmessage st msg now freshId = .ok st' ∧
      st'.sourcesRef = [] ∧
      st'.nextStartTimeRef = 0 ∧
      scheduledStart st' now' = now' ∧
      (∀ s : AudioBufferSourceNode, ∃ t, tryStopNode s = .ok t ∧ t.finished = true) ∧
      (∀ s : AudioBufferSourceNode, s.finished = true →
        stopNode s = .error invalidCharacterError ∧ tryStopNode s = .ok s) := by
  obtain ⟨ad, intr, it, ot, tc⟩ := msg
  simp only at hA hInt
  subst hA
  subst hInt
  cases it <;> cases ot <;> cases tc
  all_goals
    exact ⟨_, rfl, by simp [onmessage, commitTurn], by simp [onmessage, commitTurn],
      by simp [onmessage, scheduledStart, commitTurn, max_eq_right hNow],
      fun s => tryStopNode_never_raises s,
      fun s hs => ⟨by simp [stopNode, hs], by simp [tryStopNode, stopNode, hs]⟩⟩

/-- Witness for C2: an interruption with one already-finished handle in
the queue at clock 7 leaves an empty queue and clock 0, the next segment at
device time 3 is scheduled at 3, and force-stopping the finished handle
returns it unchanged instead of raising. -/
theorem interruption_resets_witness :
    ∃ st' : AppState,
      onmessage { initialState with sourcesRef := [⟨0, 0, 1, true⟩], nextStartTimeRef := 7 }
          { interrupted := true } 1 0 = .ok st' ∧
      st'.sourcesRef = [] ∧
      st'.nextStartTimeRef = 0 ∧
      scheduledStart st' 3 = 3 ∧
      tryStopNode ⟨0, 0, 1, true⟩ = .ok ⟨0, 0, 1, true⟩ ∧
      stopNode ⟨0, 0, 1, true⟩ = .error invalidCharacterError := by
  obtain ⟨st', h1, h2, h3, h4, _, h6⟩ :=
    interruption_resets
      { initialState with sourcesRef := [⟨0, 0, 1, true⟩], nextStartTimeRef := 7 }
      { interrupted := true } 1 3 0 rfl rfl (by norm_num)
  obtain ⟨hstop, htry⟩ := h6 ⟨0, 0, 1, true⟩ rfl
  exact ⟨st', h1, h2, h3, h4, htry, hstop⟩

/-- The classifier's case analysis: the if/else chain of
src/App.tsx lines 217-223, characterized by which keyword groups occur in
the lower-cased text. -/
theorem classifyPerception_spec (text : JSStr) (prev : PerceptionState) :
    (mentionsAny lockingKeywords text → classifyPerception text prev = .LOCKING) ∧
    (¬ mentionsAny lockingKeywords text → mentionsAny guidingKeywords text →
      classifyPerception text prev = .GUIDING) ∧
    (¬ mentionsAny lockingKeywords text → ¬ mentionsAny guidingKeywords text →
      mentionsAny scanningKeywords text → classifyPerception text prev = .SCANNING) ∧
    (¬ mentionsAny lockingKeywords text → ¬ mentionsAny guidingKeywords text →
      ¬ mentionsAny scanningKeywords text → classifyPerception text prev = prev) := by
  simp only [mentionsAny_iff, lockingKeywords, guidingKeywords, scanningKeywords,
    List.any_cons, List.any_nil, Bool.or_false, Bool.or_eq_true, not_or,
    Bool.not_eq_true]
  refine ⟨fun h => ?_, fun h1 h2 => ?_, fun h1 h2 h3 => ?_, fun h1 h2 h3 => ?_⟩ <;>
    simp only [classifyPerception]
  · rcases h with h | h | h <;> simp [h]
  · obtain ⟨f1, f2, f3⟩ := h1
    rcases h2 with h | h | h | h | h <;> simp [f1, f2, f3, h]
  · obtain ⟨f1, f2, f3⟩ := h1
    obtain ⟨g1, g2, g3, g4, g5⟩ := h2
    rcases h3 with h | h | h <;> simp [f1, f2, f3, g1, g2, g3, g4, g5, h]
  · obtain ⟨f1, f2, f3⟩ := h1
    obtain ⟨g1, g2, g3, g4, g5⟩ := h2
    obtain ⟨s1, s2, s3⟩ := h3
    simp [f1, f2, f3, g1, g2, g3, g4, g5, s1, s2, s3]

/-- C3 counterexample: starting from a fresh state, the handler receives
output fragment "Target found" (the accumulated text now holds the Locking
keyword "found") and then the fragment " scanning" (a Scanning keyword is
subsequently appended); the state after that append is Locking, not
Scanning — the classifier re-runs its fixed priority order over the whole
accumulated text, so the most recent match does not win. -/
theorem perception_recency_counterexample :
    (do
      let s1 ← onmessage initialState
        { outputTranscription := some ['T','a','r','g','e','t',' ','f','o','u','n','d'] } 0 0
      let s2 ← onmessage s1
        { outputTranscription := some [' ','s','c','a','n','n','i','n','g'] } 0 0
      pure s2.perceptionState : Except JSStr PerceptionState) = .ok PerceptionState.LOCKING ∧
    mentionsAny lockingKeywords ['T','a','r','g','e','t',' ','f','o','u','n','d'] ∧
    mentionsAny scanningKeywords [' ','s','c','a','n','n','i','n','g'] ∧
    PerceptionState.LOCKING ≠ PerceptionState.SCANNING :=
  ⟨rfl, by decide, by decide, by decide⟩

/-- C3 (amended): the perception state after each output-transcription
append is the fixed-priority classifier applied to the whole accumulated
output text; in particular, once a Locking keyword appears in the
accumulated text, appending a Scanning keyword leaves the state Locking
(priority over the full buffer wins, not recency). -/
theorem perception_follows_full_text (st : AppState) (msg : ServerMessage) (t : JSStr)
    (now : ℚ) (freshId : Nat)
    (hA : msg.audioData = none)
    (hOut : msg.outputTranscription = some t) :
    ∃ st' : AppState, onmessage st msg now freshId = .ok st' ∧
      st'.perceptionState =
        classifyPerception (st.activeOutputRef ++ t) st.perceptionState ∧
      (mentionsAny lockingKeywords (st.activeOutputRef ++ t) →
        st'.perceptionState = PerceptionState.LOCKING) := by
  obtain ⟨ad, intr, it, ot, tc⟩ := msg
  simp only at hA hOut
  subst hA
  subst hOut
  cases intr <;> cases it <;> cases tc
  all_goals
    refine ⟨_, rfl, by simp [onmessage, commitTurn], fun h => ?_⟩
    have hc := (classifyPerception_spec (st.activeOutputRef ++ t) st.perceptionState).1 h
    simp [onmessage, commitTurn, hc]

/-- Witness for C3 (amended): with "Target found" accumulated, appending
" scanning" leaves the perception state Locking. -/
theorem perception_follows_full_text_witness :
    ∃ st' : AppState,
      onmessage { initialState with
          activeOutputRef := ['T','a','r','g','e','t',' ','f','o','u','n','d'] }
        { outputTranscription := some [' ','s','c','a','n','n','i','n','g'] } 0 0 = .ok st' ∧
      st'.perceptionState = PerceptionState.LOCKING := by
  obtain ⟨st', h1, h2, h3⟩ :=
    perception_follows_full_text
      { initialState with
          activeOutputRef := ['T','a','r','g','e','t',' ','f','o','u','n','d'] }
      { outputTranscription := some [' ','s','c','a','n','n','i','n','g'] }
      [' ','s','c','a','n','n','i','n','g'] 0 0 rfl rfl
  exact ⟨st', h1, h3 (by decide)⟩

/-- C4: the classifier is a deterministic function of the lower-cased
accumulated text evaluated in the fixed priority order Locking, then
Guiding, then Scanning, with unmatched text leaving the state unchanged;
in particular a text containing both a Locking and a Guiding keyword
always yields Locking. -/
theorem classifier_priority (text : JSStr) (prev : PerceptionState) :
    (mentionsAny lockingKeywords text → classifyPerception text prev = .LOCKING) ∧
    (¬ mentionsAny lockingKeywords text → mentionsAny guidingKeywords text →
      classifyPerception text prev = .GUIDING) ∧
    (¬ mentionsAny lockingKeywords text → ¬ mentionsAny guidingKeywords text →
      mentionsAny scanningKeywords text → classifyPerception text prev = .SCANNING) ∧
    (¬ mentionsAny lockingKeywords text → ¬ mentionsAny guidingKeywords text →
      ¬ mentionsAny scanningKeywords text → classifyPerception text prev = prev) ∧
    (mentionsAny lockingKeywords text → mentionsAny guidingKeywords text →
      classifyPerception text prev = .LOCKING) := by
  obtain ⟨c1, c2, c3, c4⟩ := classifyPerception_spec text prev
  exact ⟨c1, c2, c3, c4, fun hl _ => c1 hl⟩

/-- Witness for C4: "target found move" holds both a Locking and a
Guiding keyword and classifies as Locking. -/
theorem classifier_priority_witness :
    mentionsAny lockingKeywords
      ['t','a','r','g','e','t',' ','f','o','u','n','d',' ','m','o','v','e'] ∧
    mentionsAny guidingKeywords
      ['t','a','r','g','e','t',' ','f','o','u','n','d',' ','m','o','v','e'] ∧
    classifyPerception ['t','a','r','g','e','t',' ','f','o','u','n','d',' ','m','o','v','e']
      PerceptionState.IDLE = PerceptionState.LOCKING :=
  ⟨by decide, by decide,
    (classifier_priority ['t','a','r','g','e','t',' ','f','o','u','n','d',' ','m','o','v','e']
      PerceptionState.IDLE).2.2.2.2 (by decide) (by decide)⟩

/-- C5: on a turn-completion signal both role buffers are trimmed; for
each buffer that is non-empty after trimming one transcript turn is
appended, the user turn before the model turn; both buffers are then
cleared; if both trim to empty nothing is appended. -/
theorem turn_commit (st : AppState) (msg : ServerMessage) (now : ℚ) (freshId : Nat)
    (hA : msg.audioData = none)
    (hIn : msg.inputTranscription = none)
    (hOut : msg.outputTranscription = none)
    (hTC : msg.turnComplete = true) :
    ∃ st' : AppState, onmessage st msg now freshId = .ok st' ∧
      st'.activeInputRef = [] ∧ st'.activeOutputRef = [] ∧
      st'.currentInput = [] ∧ st'.currentOutput = [] ∧
      (jsTrim st.activeInputRef = [] → jsTrim st.activeOutputRef = [] →
        st'.history = st.history) ∧
      (jsTrim st.activeInputRef ≠ [] → jsTrim st.activeOutputRef ≠ [] →
        st'.history = sliceLast 15 (st.history ++
          [{ role := Role.user, text := jsTrim st.activeInputRef },
           { role := Role.model, text := jsTrim st.activeOutputRef }])) ∧
      (jsTrim st.activeInputRef = [] → jsTrim st.activeOutputRef ≠ [] →
        st'.history = sliceLast 15 (st.history ++
          [{ role := Role.model, text := jsTrim st.activeOutputRef }])) ∧
      (jsTrim st.activeInputRef ≠ [] → jsTrim st.activeOutputRef = [] →
        st'.history = sliceLast 15 (st.history ++
          [{ role := Role.user, text := jsTrim st.activeInputRef }])) := by
  obtain ⟨ad, intr, it, ot, tc⟩ := msg
  simp only at hA hIn hOut hTC
  subst hA; subst hIn; subst hOut; subst hTC
  cases intr
  all_goals
    refine ⟨_, rfl, by simp [onmessage, commitTurn], by simp [onmessage, commitTurn],
      by simp [onmessage, commitTurn], by simp [onmessage, commitTurn],
      fun h1 h2 => by simp [onmessage, commitTurn, turnEntries, h1, h2],
      fun h1 h2 => by
        simp [onmessage, commitTurn, turnEntries, h1, h2,
          List.isEmpty_iff],
      fun h1 h2 => by
        simp [onmessage, commitTurn, turnEntries, h1, h2, List.isEmpty_iff],
      fun h1 h2 => by
        simp [onmessage, commitTurn, turnEntries, h1, h2, List.isEmpty_iff]⟩

/-- Witness for C5: a turn-complete with no prior input text and output
text "Target found" appends exactly one history entry, of role model, and
clears the buffers. -/
theorem turn_commit_witness :
    ∃ st' : AppState,
      onmessage { initialState with
          activeOutputRef := ['T','a','r','g','e','t',' ','f','o','u','n','d'] }
        { turnComplete := true } 0 0 = .ok st' ∧
      st'.history =
        [{ role := Role.model, text := ['T','a','r','g','e','t',' ','f','o','u','n','d'] }] ∧
      st'.activeInputRef = [] ∧ st'.activeOutputRef = [] ∧
      st'.currentInput = [] ∧ st'.currentOutput = [] := by
  obtain ⟨st', h1, h2, h3, h4, h5, _, _, h8, _⟩ :=
    turn_commit { initialState with
        activeOutputRef := ['T','a','r','g','e','t',' ','f','o','u','n','d'] }
      { turnComplete := true } 0 0 rfl rfl rfl rfl
  refine ⟨st', h1, ?_, h2, h3, h4, h5⟩
  rw [h8 (by decide) (by decide)]
  decide

/-- C6: over any sequence of committed turns the history after each
commit is exactly the suffix of the most recent 15 committed entries, in
original relative order (the oldest evicted first), and never exceeds 15
entries. -/
theorem history_cap (st : AppState) (turns : List (JSStr × JSStr))
    (hIn : st.activeInputRef = []) (hOut : st.activeOutputRef = [])
    (hLen : st.history.length ≤ 15) :
    ∃ st' : AppState, runCommits st turns = .ok st' ∧
      st'.history = sliceLast 15 (st.history ++ committedEntries turns) ∧
      st'.history.length ≤ 15 ∧
      st'.history <:+ st.history ++ committedEntries turns := by
  induction turns generalizing st with
  | nil =>
      refine ⟨st, rfl, ?_, hLen, ?_⟩
      · simp [committedEntries, sliceLast_of_length_le hLen]
      · simp [committedEntries]
  | cons p rest ih =>
      obtain ⟨u, o⟩ := p
      have hstep : runCommits st ((u, o) :: rest) =
          runCommits (commitTurn { st with
            activeInputRef := st.activeInputRef ++ u
            currentInput := st.activeInputRef ++ u
            activeOutputRef := st.activeOutputRef ++ o
            currentOutput := st.activeOutputRef ++ o
            perceptionState :=
              classifyPerception (st.activeOutputRef ++ o) st.perceptionState }) rest := rfl
      rw [hIn, hOut] at hstep
      simp only [List.nil_append] at hstep
      set st1 := commitTurn { st with
            activeInputRef := u
            currentInput := u
            activeOutputRef := o
            currentOutput := o
            perceptionState := classifyPerception o st.perceptionState } with hst1
      have h1hist : st1.history =
          sliceLast 15 (st.history ++ turnEntries (jsTrim u) (jsTrim o)) := by
        rw [hst1]
        simp only [commitTurn]
        by_cases hu : (jsTrim u).isEmpty <;> by_cases ho : (jsTrim o).isEmpty
        · have hu' : jsTrim u = [] := by simpa [List.isEmpty_iff] using hu
          have ho' : jsTrim o = [] := by simpa [List.isEmpty_iff] using ho
          simp [hu, ho, turnEntries, hu', ho', sliceLast_of_length_le hLen]
        · simp [hu, ho]
        · simp [hu, ho]
        · simp [hu, ho]
      have h1in : st1.activeInputRef = [] := rfl
      have h1out : st1.activeOutputRef = [] := rfl
      have h1len : st1.history.length ≤ 15 := by
        rw [h1hist]; exact sliceLast_length_le _ _
      obtain ⟨st', hrun, hhist, hlen, hsuf⟩ := ih st1 h1in h1out h1len
      refine ⟨st', by rw [hstep]; exact hrun, ?_, hlen, ?_⟩
      · rw [hhist, h1hist, sliceLast_append_sliceLast]
        simp [committedEntries, List.flatMap_cons, List.append_assoc]
      · rw [hhist]
        have := sliceLast_suffix 15 (st1.history ++ committedEntries rest)
        rw [h1hist] at this ⊢
        calc sliceLast 15 (sliceLast 15 (st.history ++ turnEntries (jsTrim u) (jsTrim o)) ++
                committedEntries rest)
            = sliceLast 15 ((st.history ++ turnEntries (jsTrim u) (jsTrim o)) ++
                committedEntries rest) := by
              rw [sliceLast_append_sliceLast]
          _ <:+ _ := by
              rw [List.append_assoc]
              have h2 := sliceLast_suffix 15
                (st.history ++ (turnEntries (jsTrim u) (jsTrim o) ++ committedEntries rest))
              simpa [committedEntries, List.flatMap_cons] using h2

/-- Witness for C6: committing eight turns of two entries each (16
entries) from an empty history leaves exactly the most recent 15 entries
in order — the very first entry has been evicted. -/
theorem history_cap_witness :
    ∃ st' : AppState,
      runCommits initialState
        [(['a'], ['b']), (['c'], ['d']), (['e'], ['f']), (['g'], ['h']),
         (['i'], ['j']), (['k'], ['l']), (['m'], ['n']), (['o'], ['p'])] = .ok st' ∧
      st'.history =
        [{ role := Role.model, text := ['b'] },
         { role := Role.user, text := ['c'] }, { role := Role.model, text := ['d'] },
         { role := Role.user, text := ['e'] }, { role := Role.model, text := ['f'] },
         { role := Role.user, text := ['g'] }, { role := Role.model, text := ['h'] },
         { role := Role.user, text := ['i'] }, { role := Role.model, text := ['j'] },
         { role := Role.user, text := ['k'] }, { role := Role.model, text := ['l'] },
         { role := Role.user, text := ['m'] }, { role := Role.model, text := ['n'] },
         { role := Role.user, text := ['o'] }, { role := Role.model, text := ['p'] }] ∧
      st'.history.length ≤ 15 := by
  obtain ⟨st', h1, h2, h3, _⟩ :=
    history_cap initialState
      [(['a'], ['b']), (['c'], ['d']), (['e'], ['f']), (['g'], ['h']),
       (['i'], ['j']), (['k'], ['l']), (['m'], ['n']), (['o'], ['p'])]
      rfl rfl (by decide)
  refine ⟨st', h1, ?_, h3⟩
  rw [h2]
  decide

/-- C8: transport encoding of 16-bit signed PCM is deterministic and
lossless — decoding the encoded transport string reconstructs the exact
little-endian byte sequence of the samples, and converting those bytes
back yields every sample divided by 32768; the PCM-to-float conversion of
an odd-length byte sequence discards exactly the trailing byte without an
error, yields one sample per remaining byte pair, reads each pair as a
little-endian 16-bit signed value divided by 32768, and lands in
[-1, 1]. -/
theorem codec_lossless (samples : List Int) (bytes : List Nat) (i : Nat)
    (hS : ∀ s ∈ samples, -32768 ≤ s ∧ s < 32768)
    (hB : ∀ b ∈ bytes, b < 256)
    (hOdd : Odd bytes.length)
    (hi : 2 * i + 1 < bytes.length) :
    decodeFromTransport (encodeToTransport samples) = .ok (samples.flatMap int16ToBytes) ∧
    bytesToSamples (samples.flatMap int16ToBytes) =
      samples.map (fun s : Int => ((s : ℚ) / 32768)) ∧
    bytesToSamples bytes = bytesToSamples bytes.dropLast ∧
    (bytesToSamples bytes).length = bytes.length / 2 ∧
    (∀ x ∈ bytesToSamples bytes, -1 ≤ x ∧ x ≤ 1) ∧
    (bytesToSamples bytes).getD i 0 =
      (int16val (bytes.getD (2 * i) 0 + bytes.getD (2 * i + 1) 0 * 256) : ℚ) / 32768 := by
  refine ⟨?_, bytesToSamples_flatMap samples hS, bytesToSamples_dropLast_of_odd bytes hOdd,
    bytesToSamples_length bytes, bytesToSamples_mem_range bytes hB,
    bytesToSamples_getD bytes i hi⟩
  unfold encodeToTransport decodeFromTransport
  apply decodeBytes_encodeBytes
  intro b hb
  rw [List.mem_flatMap] at hb
  obtain ⟨s, _, hbs⟩ := hb
  exact int16ToBytes_lt s b hbs

/-- Witness for C8: four samples spanning the signed range round-trip
through the transport, and the odd byte sequence [1, 2, 3] drops exactly
its trailing byte, producing the single sample 513 / 32768. -/
theorem codec_lossless_witness :
    decodeFromTransport (encodeToTransport [1000, -1000, 32767, -32768]) =
      .ok ([1000, -1000, 32767, -32768].flatMap int16ToBytes) ∧
    bytesToSamples ([1000, -1000, 32767, -32768].flatMap int16ToBytes) =
      [(1000 : ℚ) / 32768, (-1000 : ℚ) / 32768, (32767 : ℚ) / 32768, (-32768 : ℚ) / 32768] ∧
    bytesToSamples [1, 2, 3] = bytesToSamples [1, 2] ∧
    (bytesToSamples [1, 2, 3]).length = 1 ∧
    (bytesToSamples [1, 2, 3]).getD 0 0 = (int16val 513 : ℚ) / 32768 := by
  obtain ⟨h1, h2, h3, h4, _, h6⟩ :=
    codec_lossless [1000, -1000, 32767, -32768] [1, 2, 3] 0
      (by decide) (by decide) (by decide) (by decide)
  refine ⟨h1, ?_, by simpa using h3, h4, by simpa using h6⟩
  rw [h2]
  norm_num

end VisionGuide
